import Mathlib

/-!
Verification of the Personal Projects Analysis app (`src/app.py`).

The app keeps four pieces of session state (`app.py` lines 29-32):
`projects` (a list of `{name: ...}` records), `ratings` (a dict from
project name to a dict from dimension name to integer score), `values`
(a dict from project name to free text), and `matrix` (a pandas
DataFrame indexed by project names on both axes).

Python dicts are insertion-ordered maps with unique keys; we model them
as association lists with the exact dict semantics: assignment to an
existing key updates the value in place, assignment to a fresh key
appends, and `del` removes the (unique) entry.  Integer scores are `Int`
and the float arithmetic of `calculate_factors` (sums of small integers
divided by 2 or 3, always exact) is modelled in `ℚ`.
-/

/-- Python `d.get(k)` / `d[k]` on an insertion-ordered dict modelled as an
association list: the value at the first matching key, if any. -/
def dictLookup {α : Type} : List (String × α) → String → Option α
  | [], _ => none
  | (k, v) :: t, k' => if k' = k then some v else dictLookup t k'

/-- Python `d[k] = v`: update in place if `k` is present, else append. -/
def dictInsert {α : Type} : List (String × α) → String → α → List (String × α)
  | [], k, v => [(k, v)]
  | (k', v') :: t, k, v => if k = k' then (k, v) :: t else (k', v') :: dictInsert t k v

/-- Python `del d[k]`: drop the (first) entry whose key is `k`. -/
def dictErase {α : Type} : List (String × α) → String → List (String × α)
  | [], _ => []
  | (k', v') :: t, k => if k = k' then t else (k', v') :: dictErase t k

/-- A rating dict: dimension name ↦ integer score (`app.py` sliders give 0-10). -/
abbrev RatingSet := List (String × Int)

/-- The metrics engine `calculate_factors` (`app.py` lines 35-42): each dimension is read with
`ratings.get(dim, 0)` and the five factor scores are returned as a dict
in the key order of the dict literal. -/
def calculate_factors (ratings : RatingSet) : List (String × ℚ) :=
  let get (k : String) : ℚ := (((dictLookup ratings k).getD 0 : ℤ) : ℚ)
  let stress := (get "Difficulty" + get "Challenge" + (10 - get "Competence")) / 3
  let meaning := (get "Importance" + get "Value Congruency" + get "Self-Identity") / 3
  let efficacy := (get "Progress" + get "Control" + get "Outcome") / 3
  let structureScore := (get "Control" + get "Time Adequacy") / 2
  let community := (get "Visibility" + get "Support") / 2
  [("Stress", stress), ("Meaning", meaning), ("Efficacy", efficacy),
   ("Structure", structureScore), ("Community", community)]

/-- The fixed dimension list of `app.py` lines 83-86, in source order. -/
def projectDims : List String :=
  ["Importance", "Difficulty", "Visibility", "Control", "Responsibility", "Time Adequacy",
   "Outcome", "Self-Identity", "Others View", "Value Congruency", "Progress", "Challenge",
   "Absorption", "Support", "Competence", "Autonomy"]

/-- The dict comprehension of `app.py` line 83: every dimension at the midpoint. -/
def defaultRating : RatingSet := projectDims.map (fun d => (d, (5 : Int)))

/-- The `matrix` DataFrame: row index labels, column labels, and the cell grid.
`pd.DataFrame()` at startup is the empty frame; `.shape` is
`(rowNames.length, colNames.length)`. -/
structure DFrame where
  rowNames : List String
  colNames : List String
  cells : List (List Int)
deriving DecidableEq, Repr

/-- The `df.shape` value of the modelled DataFrame. -/
def DFrame.shape (m : DFrame) : Nat × Nat := (m.rowNames.length, m.colNames.length)

/-- The four session-state stores of `app.py` lines 29-32.  `projects` keeps
only the names, since each registry record is exactly a one-key dict holding the name. -/
structure AppState where
  projects : List String
  ratings : List (String × RatingSet)
  values : List (String × String)
  matrix : DFrame
deriving DecidableEq, Repr

/-- The freshly initialised session state (`app.py` lines 29-32): empty
registry, empty dicts, empty DataFrame. -/
def initState : AppState :=
  { projects := [], ratings := [], values := [], matrix := ⟨[], [], []⟩ }

/-- Phase 1 add handler (`app.py` lines 79-88): a falsy (empty) name or a
duplicate name is a silent no-op; otherwise the name is appended to the
registry and its ratings are initialised to all-5 defaults. -/
def add_project (s : AppState) (name : String) : AppState :=
  if name = "" then s
  else if name ∈ s.projects then s
  else { s with
         projects := s.projects ++ [name],
         ratings := dictInsert s.ratings name defaultRating }

/-- Phase 1 delete handler (`app.py` lines 96-98):
a `projects.pop(i)` followed by deleting the rating entry of that name.  An invalid index
or a missing ratings entry would raise in Python; both are modelled as
`none` (the reachability invariants below show neither occurs for the
per-project delete buttons the UI renders). -/
def delete_project (s : AppState) (i : Nat) : Option AppState :=
  match s.projects.get? i with
  | none => none
  | some name =>
      if (dictLookup s.ratings name).isSome then
        some { s with
               projects := s.projects.eraseIdx i,
               ratings := dictErase s.ratings name }
      else none

/-- The Importance sort key of the laddering phase (`app.py` line 167),
read as `ratings[name][Importance]`.  Both lookups always succeed in
reachable states (see the invariants below); the `getD` arms are the
would-raise branches. -/
def importanceOf (s : AppState) (name : String) : Int :=
  (dictLookup ((dictLookup s.ratings name).getD []) "Importance").getD 0

/-- The sort of `app.py` line 167, `sorted(projects, key=..., reverse=True)`:
the Python sort is stable, and with `reverse=True` it orders by strictly descending
key while ties keep their original order — exactly insertion sort under
the total preorder `importanceOf b ≤ importanceOf a` (stability is proved
below in filter form). -/
def sorted_projs (s : AppState) : List String :=
  List.insertionSort (fun a b => importanceOf s b ≤ importanceOf s a) s.projects

/-- The slice of the first three, `sorted_projs[:3]` (`app.py` line 168). -/
def top_3 (s : AppState) : List String := (sorted_projs s).take 3

/-- Phase 3 ladder write (`app.py` lines 176-177): `if val:` makes the empty
string a no-op; a non-empty text is stored under the project name. -/
def setValue (s : AppState) (name text : String) : AppState :=
  if text = "" then s
  else { s with values := dictInsert s.values name text }

/-- The rebuilt all-zero frame `pd.DataFrame(0, index=names, columns=names)`
of `app.py` line 194. -/
def zeroMatrix (names : List String) : DFrame :=
  { rowNames := names, colNames := names,
    cells := names.map (fun _ => names.map (fun _ => (0 : Int))) }

/-- The Phase 4 shape check (`app.py` lines 193-194): rebuild the matrix as
all zeros over the current names iff the stored shape differs from
`(len(names), len(names))`; otherwise the stored matrix is untouched. -/
def getMatrix (s : AppState) : AppState :=
  if s.matrix.shape ≠ (s.projects.length, s.projects.length)
  then { s with matrix := zeroMatrix s.projects }
  else s

/-- A dashboard cell is either a factor score or a text value; the rows that
feed `pd.DataFrame(data)` (`app.py` lines 211-218) hold both. -/
inductive Cell where
  | num (q : ℚ)
  | str (t : String)
deriving DecidableEq, Repr

/-- One dashboard row (`app.py` lines 212-217): the `calculate_factors` dict,
then the Name and Core Value fields appended in that order, the latter read
with a `values.get` defaulting to the `N/A` sentinel (fresh dict keys append).  `ratings[name]`
raises on a missing entry, hence the `Option`. -/
def dashboardRow (s : AppState) (name : String) : Option (List (String × Cell)) :=
  (dictLookup s.ratings name).map (fun r =>
    (calculate_factors r).map (fun kv => (kv.1, Cell.num kv.2))
      ++ [("Name", Cell.str name),
          ("Core Value", Cell.str ((dictLookup s.values name).getD "N/A"))])

/-- The `data` list of `app.py` lines 211-217: one row per registry project,
in registry order. -/
def dashboardData (s : AppState) : Option (List (List (String × Cell))) :=
  s.projects.mapM (dashboardRow s)

/-- The columns of `pd.DataFrame(data)`: keys in order of first appearance —
every row carries the same keys, so the key list of the first row. -/
def exportColumns (rows : List (List (String × Cell))) : List String :=
  match rows with
  | [] => []
  | r :: _ => r.map Prod.fst

/-- The header line of `df.to_csv()` (`app.py` line 276): the unnamed default
`RangeIndex` contributes a leading empty field, then the column names. -/
def csvHeader (rows : List (List (String × Cell))) : List String :=
  "" :: exportColumns rows

/-- The edited matrix a `st.data_editor` round-trip stores back
(`app.py` lines 196-201): the index and columns are fixed, only the cell
grid changes. -/
def editCells (s : AppState) (cells : List (List Int)) : AppState :=
  { s with matrix := { s.matrix with cells := cells } }

/-- One user interaction, for the operation set of claim C2: a Phase 1 add, a
Phase 1 delete (the UI renders a delete button per valid index), a Phase 3
ladder write (only the displayed top-3 projects get a text box), or a
Phase 4 matrix rebuild-plus-edit (guarded by `len(names) < 2` and by the
fixed shape of the editor and its `[-1, 1]` cell bounds). -/
inductive Step : AppState → AppState → Prop
  | add (s : AppState) (name : String) : Step s (add_project s name)
  | del (s s' : AppState) (i : Nat) (h : delete_project s i = some s') : Step s s'
  | ladder (s : AppState) (name text : String) (h : name ∈ top_3 s) :
      Step s (setValue s name text)
  | matrixEdit (s : AppState) (cells : List (List Int))
      (hn : 2 ≤ s.projects.length)
      (hrows : cells.length = (getMatrix s).matrix.rowNames.length)
      (hcols : ∀ row ∈ cells, row.length = (getMatrix s).matrix.colNames.length)
      (hval : ∀ row ∈ cells, ∀ v ∈ row, -1 ≤ v ∧ v ≤ 1) :
      Step s (editCells (getMatrix s) cells)

/-- States reachable from the fresh session by the operations of claim C2. -/
def Reachable (s : AppState) : Prop := Relation.ReflTransGen Step initState s

/-- One user interaction, for the operation set of claim C10: add, delete, or the
sidebar reset (`app.py` lines 59-62, which deletes every session key so the
next run reinitialises the empty stores). -/
inductive StepR : AppState → AppState → Prop
  | add (s : AppState) (name : String) : StepR s (add_project s name)
  | del (s s' : AppState) (i : Nat) (h : delete_project s i = some s') : StepR s s'
  | reset (s : AppState) : StepR s initState

/-- States reachable from the fresh session by the operations of claim C10. -/
def ReachableR (s : AppState) : Prop := Relation.ReflTransGen StepR initState s

/-- The key list of a modelled dict. -/
def dictKeys {α : Type} (l : List (String × α)) : List String := l.map Prod.fst

/-- A dimension as `calculate_factors` reads it: the stored score, or 0 when
the dimension is absent from the mapping. -/
def specDim (r : RatingSet) (k : String) : ℚ := (((dictLookup r k).getD 0 : ℤ) : ℚ)

/-- The dimensions `calculate_factors` actually reads (`app.py` lines 37-41). -/
def usedDims : List String :=
  ["Difficulty", "Challenge", "Competence", "Importance", "Value Congruency",
   "Self-Identity", "Progress", "Control", "Outcome", "Time Adequacy",
   "Visibility", "Support"]

/-- Well-formedness preserved by every user interaction: registry names are
duplicate-free, rating keys are duplicate-free, and every rating key is a
registered name. -/
def WF (s : AppState) : Prop :=
  s.projects.Nodup ∧ (dictKeys s.ratings).Nodup ∧
    ∀ k, (dictLookup s.ratings k).isSome → k ∈ s.projects

/-- The stronger invariant of the add/delete/reset fragment: additionally,
every registered project still carries the untouched default rating set. -/
def WFR (s : AppState) : Prop :=
  WF s ∧ ∀ name ∈ s.projects, dictLookup s.ratings name = some defaultRating

/-- C2 counterexample trace, step 1: add "A". -/
def cexS1 : AppState := add_project initState "A"

/-- C2 counterexample trace, step 2: add "B". -/
def cexS2 : AppState := add_project cexS1 "B"

/-- C2 counterexample trace, step 3: visit Phase 4 — the matrix is rebuilt
over ["A", "B"] and stored back unchanged by the editor. -/
def cexS3 : AppState := editCells (getMatrix cexS2) [[0, 0], [0, 0]]

/-- C2 counterexample trace, step 4: ladder "A" (it is in the top 3). -/
def cexS4 : AppState := setValue cexS3 "A" "growth"

/-- C2 counterexample trace, step 5: delete "A" (index 0). -/
def cexS5 : AppState :=
  { cexS4 with
    projects := cexS4.projects.eraseIdx 0
    ratings := dictErase cexS4.ratings "A" }

/-- C2 counterexample trace, step 6: add "C" — the registry is ["B", "C"],
yet the ladder store still holds "A" and the matrix is still labelled
["A", "B"] (its 2×2 shape matches, so even a Phase 4 revisit keeps it). -/
def cexS6 : AppState := add_project cexS5 "C"

/-- The single dashboard row of the one-project state `add_project initState
"A"`: all five factors are 5 on the default all-5 ratings, and the ladder
store is empty, so `Core Value` is the `"N/A"` sentinel. -/
def cex3Rows : List (List (String × Cell)) :=
  [[("Stress", Cell.num 5), ("Meaning", Cell.num 5), ("Efficacy", Cell.num 5),
    ("Structure", Cell.num 5), ("Community", Cell.num 5),
    ("Name", Cell.str "A"), ("Core Value", Cell.str "N/A")]]

/-! ### Lemmas about the dict primitives -/

theorem dictLookup_insert_self {α : Type} (l : List (String × α)) (k : String) (v : α) :
    dictLookup (dictInsert l k v) k = some v := by
  induction l with
  | nil => simp [dictInsert, dictLookup]
  | cons p t ih =>
    obtain ⟨k', v'⟩ := p
    by_cases h : k = k'
    · simp [dictInsert, h, dictLookup]
    · simp [dictInsert, h, dictLookup, ih]

theorem dictLookup_insert_ne {α : Type} (l : List (String × α)) {m k : String} (v : α)
    (h : m ≠ k) : dictLookup (dictInsert l k v) m = dictLookup l m := by
  induction l with
  | nil => simp [dictInsert, dictLookup, h]
  | cons p t ih =>
    obtain ⟨k', v'⟩ := p
    by_cases hk : k = k'
    · subst hk
      simp [dictInsert, dictLookup, h]
    · by_cases hm : m = k'
      · simp [dictInsert, hk, dictLookup, hm]
      · simp [dictInsert, hk, dictLookup, hm, ih]

theorem dictLookup_erase_ne {α : Type} (l : List (String × α)) {m k : String}
    (h : m ≠ k) : dictLookup (dictErase l k) m = dictLookup l m := by
  induction l with
  | nil => simp [dictErase]
  | cons p t ih =>
    obtain ⟨k', v'⟩ := p
    by_cases hk : k = k'
    · subst hk
      simp [dictErase, dictLookup, h]
    · by_cases hm : m = k'
      · simp [dictErase, hk, dictLookup, hm]
      · simp [dictErase, hk, dictLookup, hm, ih]

theorem dictLookup_eq_none_of_not_mem {α : Type} (l : List (String × α)) {k : String}
    (h : k ∉ dictKeys l) : dictLookup l k = none := by
  induction l with
  | nil => simp [dictLookup]
  | cons p t ih =>
    obtain ⟨k', v'⟩ := p
    simp only [dictKeys, List.map_cons, List.mem_cons] at h
    push_neg at h
    simp [dictLookup, h.1, ih (by simpa [dictKeys] using h.2)]

theorem dictLookup_erase_self {α : Type} (l : List (String × α)) {k : String}
    (h : (dictKeys l).Nodup) : dictLookup (dictErase l k) k = none := by
  induction l with
  | nil => simp [dictErase, dictLookup]
  | cons p t ih =>
    obtain ⟨k', v'⟩ := p
    simp only [dictKeys, List.map_cons, List.nodup_cons] at h
    by_cases hk : k = k'
    · have he : dictErase ((k', v') :: t) k = t := by simp [dictErase, hk]
      rw [he]
      exact dictLookup_eq_none_of_not_mem t (by simpa [dictKeys, hk] using h.1)
    · simp [dictErase, hk, dictLookup, ih h.2]

theorem dictLookup_isSome_iff_mem {α : Type} (l : List (String × α)) (k : String) :
    (dictLookup l k).isSome ↔ k ∈ dictKeys l := by
  induction l with
  | nil => simp [dictLookup, dictKeys]
  | cons p t ih =>
    obtain ⟨k', v'⟩ := p
    by_cases h : k = k'
    · simp [dictLookup, h, dictKeys]
    · simp [dictLookup, h, dictKeys, ih]

theorem dictKeys_insert {α : Type} (l : List (String × α)) (k : String) (v : α) :
    dictKeys (dictInsert l k v) =
      if k ∈ dictKeys l then dictKeys l else dictKeys l ++ [k] := by
  induction l with
  | nil => simp [dictInsert, dictKeys]
  | cons p t ih =>
    obtain ⟨k', v'⟩ := p
    by_cases h : k = k'
    · simp [dictInsert, h, dictKeys]
    · by_cases hm : k ∈ dictKeys t
      · simp only [dictKeys] at hm
        simp [dictInsert, h, dictKeys, hm]
        simpa [dictKeys, hm] using ih
      · simp only [dictKeys] at hm
        simp [dictInsert, h, dictKeys, hm]
        simpa [dictKeys, hm] using ih

theorem dictKeys_erase_sublist {α : Type} (l : List (String × α)) (k : String) :
    (dictKeys (dictErase l k)).Sublist (dictKeys l) := by
  induction l with
  | nil => simp [dictErase]
  | cons p t ih =>
    obtain ⟨k', v'⟩ := p
    by_cases h : k = k'
    · simp only [dictErase, if_pos h, dictKeys, List.map_cons]
      exact List.sublist_cons_self _ _
    · simp only [dictErase, if_neg h, dictKeys, List.map_cons]
      exact ih.cons₂ _

theorem dictKeys_insert_nodup {α : Type} (l : List (String × α)) (k : String) (v : α)
    (h : (dictKeys l).Nodup) : (dictKeys (dictInsert l k v)).Nodup := by
  rw [dictKeys_insert]
  by_cases hm : k ∈ dictKeys l
  · simpa [hm] using h
  · simp [hm, List.nodup_append, h]

theorem dictKeys_erase_nodup {α : Type} (l : List (String × α)) (k : String)
    (h : (dictKeys l).Nodup) : (dictKeys (dictErase l k)).Nodup :=
  (dictKeys_erase_sublist l k).nodup h

/-! ### Lemmas about `eraseIdx` -/

theorem mem_eraseIdx_of_ne {α : Type} {l : List α} {i : Nat} {n m : α}
    (hm : m ∈ l) (hi : l.get? i = some n) (hne : m ≠ n) : m ∈ l.eraseIdx i := by
  induction l generalizing i with
  | nil => simp at hm
  | cons a t ih =>
    cases i with
    | zero =>
      simp only [List.get?] at hi
      obtain rfl : a = n := by injection hi
      rcases List.mem_cons.mp hm with rfl | hm
      · exact absurd rfl hne
      · simpa [List.eraseIdx] using hm
    | succ j =>
      simp only [List.get?] at hi
      rcases List.mem_cons.mp hm with rfl | hm
      · simp [List.eraseIdx]
      · simp [List.eraseIdx, ih hm hi]

theorem not_mem_eraseIdx_of_nodup {α : Type} {l : List α} {i : Nat} {n : α}
    (hd : l.Nodup) (hi : l.get? i = some n) : n ∉ l.eraseIdx i := by
  induction l generalizing i with
  | nil => simp [List.eraseIdx]
  | cons a t ih =>
    rcases List.nodup_cons.mp hd with ⟨ha, ht⟩
    cases i with
    | zero =>
      simp only [List.get?] at hi
      obtain rfl : a = n := by injection hi
      simpa [List.eraseIdx] using ha
    | succ j =>
      simp only [List.get?] at hi
      have hnt : n ∈ t := List.get?_mem hi
      intro hmem
      rcases List.mem_cons.mp (by simpa [List.eraseIdx] using hmem) with rfl | hmem
      · exact ha hnt
      · exact ih ht hi hmem

theorem mem_of_mem_eraseIdx {α : Type} {l : List α} {i : Nat} {m : α}
    (h : m ∈ l.eraseIdx i) : m ∈ l := (l.eraseIdx_sublist i).mem h

/-! ### Claim C1: the five factor formulas -/

/-- C1: for every rating mapping `r`, `calculate_factors r` returns exactly
the five factors, as a dict in the order Stress, Meaning, Efficacy,
Structure, Community, with Stress = (Difficulty + Challenge +
(10 − Competence)) / 3, Meaning = (Importance + Value Congruency +
Self-Identity) / 3, Efficacy = (Progress + Control + Outcome) / 3,
Structure = (Control + Time Adequacy) / 2, Community = (Visibility +
Support) / 2, every absent dimension read as 0.  The function is a pure
function of its argument (it is a plain `def` over `r`), so it reads no
other state and mutates nothing. -/
theorem calculate_factors_spec (r : RatingSet) :
    calculate_factors r =
      [("Stress", (specDim r "Difficulty" + specDim r "Challenge"
          + (10 - specDim r "Competence")) / 3),
       ("Meaning", (specDim r "Importance" + specDim r "Value Congruency"
          + specDim r "Self-Identity") / 3),
       ("Efficacy", (specDim r "Progress" + specDim r "Control"
          + specDim r "Outcome") / 3),
       ("Structure", (specDim r "Control" + specDim r "Time Adequacy") / 2),
       ("Community", (specDim r "Visibility" + specDim r "Support") / 2)] := rfl

/-! ### Claim C9: the factors depend only on the twelve read dimensions -/

/-- C9: two rating mappings that agree on the dimensions listed in `usedDims`
(as stored entries — including both lacking one) produce identical factor
dicts, whatever other keys (Responsibility, Others View, Absorption,
Autonomy, …) hold. -/
theorem calculate_factors_depends_only_on_usedDims (r1 r2 : RatingSet)
    (h : ∀ k ∈ usedDims, dictLookup r1 k = dictLookup r2 k) :
    calculate_factors r1 = calculate_factors r2 := by
  have h1 := h "Difficulty" (by simp [usedDims])
  have h2 := h "Challenge" (by simp [usedDims])
  have h3 := h "Competence" (by simp [usedDims])
  have h4 := h "Importance" (by simp [usedDims])
  have h5 := h "Value Congruency" (by simp [usedDims])
  have h6 := h "Self-Identity" (by simp [usedDims])
  have h7 := h "Progress" (by simp [usedDims])
  have h8 := h "Control" (by simp [usedDims])
  have h9 := h "Outcome" (by simp [usedDims])
  have h10 := h "Time Adequacy" (by simp [usedDims])
  have h11 := h "Visibility" (by simp [usedDims])
  have h12 := h "Support" (by simp [usedDims])
  simp only [calculate_factors, h1, h2, h3, h4, h5, h6, h7, h8, h9, h10, h11, h12]

/-- C9 witness: two mappings carrying only unread dimensions (and differing
there) give the same factors. -/
theorem calculate_factors_depends_only_on_usedDims_witness :
    calculate_factors [("Absorption", (9 : Int))]
      = calculate_factors [("Autonomy", (2 : Int))] :=
  calculate_factors_depends_only_on_usedDims _ _ (by decide)

/-! ### Claim C5: add_project -/

/-- C5: adding with an empty or duplicate name is a complete no-op; otherwise
exactly the new name is appended at the end of the registry and its rating
entry maps each of the 16 fixed dimensions to 5, everything else untouched. -/
theorem add_project_spec (s : AppState) (name : String) :
    (name = "" ∨ name ∈ s.projects → add_project s name = s) ∧
    (name ≠ "" → name ∉ s.projects →
      (add_project s name).projects = s.projects ++ [name] ∧
      dictLookup (add_project s name).ratings name = some defaultRating ∧
      dictKeys defaultRating = projectDims ∧
      projectDims.length = 16 ∧
      (∀ d ∈ projectDims, dictLookup defaultRating d = some 5) ∧
      (∀ m, m ≠ name →
        dictLookup (add_project s name).ratings m = dictLookup s.ratings m) ∧
      (add_project s name).values = s.values ∧
      (add_project s name).matrix = s.matrix) := by
  constructor
  · rintro (rfl | hmem)
    · simp [add_project]
    · simp [add_project, hmem]
  · intro hne hmem
    refine ⟨by simp [add_project, hne, hmem], by simp [add_project, hne, hmem,
      dictLookup_insert_self], by decide, by decide, by decide,
      fun m hm => by simp [add_project, hne, hmem, dictLookup_insert_ne _ _ hm],
      by simp [add_project, hne, hmem], by simp [add_project, hne, hmem]⟩

/-- C5 witness: adding "A" to the fresh state appends it with default
ratings; adding "A" again, or adding "", changes nothing. -/
theorem add_project_spec_witness :
    ((add_project initState "A").projects = [] ++ ["A"] ∧
      dictLookup (add_project initState "A").ratings "A" = some defaultRating) ∧
    add_project (add_project initState "A") "A" = add_project initState "A" ∧
    add_project initState "" = initState :=
  ⟨⟨((add_project_spec initState "A").2 (by decide) (by decide)).1,
    ((add_project_spec initState "A").2 (by decide) (by decide)).2.1⟩,
   (add_project_spec (add_project initState "A") "A").1 (Or.inr (by decide)),
   (add_project_spec initState "").1 (Or.inl rfl)⟩

/-! ### Claim C6: delete_project -/

/-- C6: deleting the project at a valid index removes exactly that project
(the registry becomes the part before it followed by the part after it, so
its length drops by exactly one) and exactly the rating entry of that
project,
while the value-ladder store and the impact matrix are untouched.  The two
well-formedness hypotheses (the rating entry exists, rating keys are
duplicate-free) hold in every reachable state — see the reachability
invariants below. -/
theorem delete_project_spec (s : AppState) (i : Nat) (name : String)
    (h : s.projects.get? i = some name)
    (hr : (dictLookup s.ratings name).isSome)
    (hk : (dictKeys s.ratings).Nodup) :
    ∃ s', delete_project s i = some s' ∧
      s'.projects = s.projects.take i ++ s.projects.drop (i + 1) ∧
      s'.projects.length + 1 = s.projects.length ∧
      dictLookup s'.ratings name = none ∧
      (∀ m, m ≠ name → dictLookup s'.ratings m = dictLookup s.ratings m) ∧
      s'.values = s.values ∧
      s'.matrix = s.matrix := by
  have hi : i < s.projects.length := by
    by_contra hlt
    rw [List.get?_eq_none.mpr (Nat.le_of_not_lt hlt)] at h
    exact Option.noConfusion h
  have h' : s.projects[i]? = some name := by
    simpa [List.get?_eq_getElem?] using h
  refine ⟨{ s with
            projects := s.projects.eraseIdx i
            ratings := dictErase s.ratings name },
    by simp [delete_project, h', hr], ?_, ?_, ?_, ?_, rfl, rfl⟩
  · exact List.eraseIdx_eq_take_drop_succ s.projects i
  · simpa using List.length_eraseIdx_add_one hi
  · exact dictLookup_erase_self _ hk
  · intro m hm
    exact dictLookup_erase_ne _ hm

/-- C6 witness: deleting index 0 from the two-project state ["A", "B"]
leaves ["B"], with the rating entry of "A" gone, the ladder store and
matrix as they were. -/
theorem delete_project_spec_witness :
    ∃ s', delete_project (add_project (add_project initState "A") "B") 0 = some s' ∧
      s'.projects = [] ++ ["B"] ∧
      s'.projects.length + 1 = 2 ∧
      dictLookup s'.ratings "A" = none := by
  obtain ⟨s', h1, h2, h3, h4, -⟩ :=
    delete_project_spec (add_project (add_project initState "A") "B") 0 "A"
      (by decide) (by decide) (by decide)
  exact ⟨s', h1, h2, h3, h4⟩

/-! ### Claim C7: the top-3-by-Importance selection -/

theorem filter_orderedInsert_neg {α : Type} (r : α → α → Prop) [DecidableRel r]
    (q : α → Bool) (a : α) (l : List α) (ha : q a = false) :
    (l.orderedInsert r a).filter q = l.filter q := by
  induction l with
  | nil => simp [List.orderedInsert, ha]
  | cons b t ih =>
    by_cases hr : r a b
    · simp [List.orderedInsert, hr, List.filter_cons, ha]
    · simp [List.orderedInsert, hr, List.filter_cons, ih]

theorem filter_orderedInsert_pos {α : Type} (r : α → α → Prop) [DecidableRel r]
    (q : α → Bool) (a : α) (l : List α) (ha : q a = true)
    (hq : ∀ x, ¬r a x → q x = false) :
    (l.orderedInsert r a).filter q = a :: l.filter q := by
  induction l with
  | nil => simp [List.orderedInsert, ha]
  | cons b t ih =>
    by_cases hr : r a b
    · simp [List.orderedInsert, hr, List.filter_cons, ha]
    · have hb := hq b hr
      simp [List.orderedInsert, hr, List.filter_cons, hb, ih]

/-- Stability of insertion sort, in filter form: if elements satisfying `q`
can never be strictly ordered past by an element satisfying `q` (which holds
when `q` fixes the sort key), sorting does not reorder them. -/
theorem filter_insertionSort {α : Type} (r : α → α → Prop) [DecidableRel r]
    (q : α → Bool) (l : List α)
    (hq : ∀ a, q a = true → ∀ x, ¬r a x → q x = false) :
    (List.insertionSort r l).filter q = l.filter q := by
  induction l with
  | nil => rfl
  | cons a t ih =>
    simp only [List.insertionSort]
    cases ha : q a with
    | false =>
        rw [filter_orderedInsert_neg r q a _ ha, ih, List.filter_cons]
        simp [ha]
    | true =>
        rw [filter_orderedInsert_pos r q a _ ha (hq a ha), ih, List.filter_cons]
        simp [ha]

/-- C7: `top_3` is the 3-element prefix (all elements when fewer than 3
exist) of a permutation of the registry that is sorted by descending
Importance; the Importance of every selected project is at least that of every
project left out; and projects with equal Importance keep their original
registry order (the sort moves no element past an element of equal key). -/
theorem top_3_spec (s : AppState) :
    (top_3 s).length = min 3 s.projects.length ∧
    (sorted_projs s).Perm s.projects ∧
    (sorted_projs s).Sorted (fun a b => importanceOf s b ≤ importanceOf s a) ∧
    (∀ a ∈ top_3 s, ∀ b ∈ (sorted_projs s).drop 3, importanceOf s b ≤ importanceOf s a) ∧
    (∀ v : Int, (sorted_projs s).filter (fun p => importanceOf s p = v)
      = s.projects.filter (fun p => importanceOf s p = v)) := by
  haveI htot : IsTotal String (fun a b => importanceOf s b ≤ importanceOf s a) :=
    ⟨fun a b => le_total (importanceOf s b) (importanceOf s a)⟩
  haveI htr : IsTrans String (fun a b => importanceOf s b ≤ importanceOf s a) :=
    ⟨fun _ _ _ hab hbc => le_trans hbc hab⟩
  have hperm := List.perm_insertionSort
    (fun a b => importanceOf s b ≤ importanceOf s a) s.projects
  have hsorted := List.sorted_insertionSort
    (fun a b => importanceOf s b ≤ importanceOf s a) s.projects
  refine ⟨?_, hperm, hsorted, ?_, ?_⟩
  · rw [top_3, List.length_take, sorted_projs, hperm.length_eq]
  · intro a ha b hb
    have hs2 : List.Pairwise (fun a b => importanceOf s b ≤ importanceOf s a)
        ((sorted_projs s).take 3 ++ (sorted_projs s).drop 3) := by
      rw [List.take_append_drop]
      exact hsorted
    exact (List.pairwise_append.mp hs2).2.2 a ha b hb
  · intro v
    exact filter_insertionSort _ _ _ (by
      intro a ha x hx
      simp only [decide_eq_true_eq] at ha
      simp only [decide_eq_false_iff_not]
      intro hxv
      exact hx (le_of_eq (by rw [ha, hxv])))

/-- C7 witness: with Importances B ↦ 9, A ↦ 5, C ↦ 5, D ↦ 1 the selection is
["B", "A", "C"] — descending, and the tied pair A, C keeps registry order —
and the Importance of D is at most that of each selected project. -/
theorem top_3_spec_witness :
    top_3 { projects := ["A", "B", "C", "D"]
            ratings := [("A", [("Importance", 5)]), ("B", [("Importance", 9)]),
                        ("C", [("Importance", 5)]), ("D", [("Importance", 1)])]
            values := []
            matrix := ⟨[], [], []⟩ } = ["B", "A", "C"] ∧
    (top_3 { projects := ["A", "B", "C", "D"]
             ratings := [("A", [("Importance", 5)]), ("B", [("Importance", 9)]),
                         ("C", [("Importance", 5)]), ("D", [("Importance", 1)])]
             values := []
             matrix := ⟨[], [], []⟩ }).length = min 3 4 ∧
    importanceOf { projects := ["A", "B", "C", "D"]
                   ratings := [("A", [("Importance", 5)]), ("B", [("Importance", 9)]),
                               ("C", [("Importance", 5)]), ("D", [("Importance", 1)])]
                   values := []
                   matrix := ⟨[], [], []⟩ } "D" ≤
      importanceOf { projects := ["A", "B", "C", "D"]
                     ratings := [("A", [("Importance", 5)]), ("B", [("Importance", 9)]),
                                 ("C", [("Importance", 5)]), ("D", [("Importance", 1)])]
                     values := []
                     matrix := ⟨[], [], []⟩ } "C" :=
  ⟨by decide,
   (top_3_spec _).1.trans (by decide),
   (top_3_spec { projects := ["A", "B", "C", "D"]
                 ratings := [("A", [("Importance", 5)]), ("B", [("Importance", 9)]),
                             ("C", [("Importance", 5)]), ("D", [("Importance", 1)])]
                 values := []
                 matrix := ⟨[], [], []⟩ }).2.2.2.1 "C" (by decide) "D" (by decide)⟩

/-! ### Claim C8: setValue -/

/-- C8: a non-empty ladder text is stored under the project name; the empty
text is a no-op, so an existing entry is never cleared or overwritten by an
empty submission, and nothing else in the state changes either way. -/
theorem setValue_spec (s : AppState) (name text : String) :
    (text = "" → setValue s name text = s) ∧
    (text ≠ "" →
      dictLookup (setValue s name text).values name = some text ∧
      (∀ m, m ≠ name →
        dictLookup (setValue s name text).values m = dictLookup s.values m) ∧
      (setValue s name text).projects = s.projects ∧
      (setValue s name text).ratings = s.ratings ∧
      (setValue s name text).matrix = s.matrix) := by
  constructor
  · intro h
    simp [setValue, h]
  · intro h
    exact ⟨by simp [setValue, h, dictLookup_insert_self],
      fun m hm => by simp [setValue, h, dictLookup_insert_ne _ _ hm],
      by simp [setValue, h], by simp [setValue, h], by simp [setValue, h]⟩

/-- C8 witness: storing a ladder value for "A" and then submitting the empty
string leaves the stored value in place. -/
theorem setValue_spec_witness :
    dictLookup (setValue initState "A" "security").values "A" = some "security" ∧
    setValue (setValue initState "A" "security") "A" "" =
      setValue initState "A" "security" :=
  ⟨(setValue_spec initState "A" "security").2 (by decide) |>.1,
   (setValue_spec (setValue initState "A" "security") "A" "").1 rfl⟩

/-! ### Claim C4: the matrix shape check -/

/-- C4: when the stored matrix shape differs from `(n, n)` for the current
registry size `n`, the matrix is replaced wholesale by an all-zero square
matrix whose row and column labels are the current names in registry order
(previous cells discarded); when the shape matches, the whole state — in
particular the stored matrix — is unchanged. -/
theorem getMatrix_spec (s : AppState) :
    (s.matrix.shape ≠ (s.projects.length, s.projects.length) →
      (getMatrix s).matrix.rowNames = s.projects ∧
      (getMatrix s).matrix.colNames = s.projects ∧
      (getMatrix s).matrix.cells.length = s.projects.length ∧
      (∀ row ∈ (getMatrix s).matrix.cells,
        row.length = s.projects.length ∧ ∀ v ∈ row, v = 0) ∧
      (getMatrix s).projects = s.projects ∧
      (getMatrix s).ratings = s.ratings ∧
      (getMatrix s).values = s.values) ∧
    (s.matrix.shape = (s.projects.length, s.projects.length) →
      getMatrix s = s) := by
  constructor
  · intro h
    refine ⟨by simp [getMatrix, h, zeroMatrix], by simp [getMatrix, h, zeroMatrix],
      by simp [getMatrix, h, zeroMatrix], ?_, by simp [getMatrix, h],
      by simp [getMatrix, h], by simp [getMatrix, h]⟩
    intro row hrow
    simp only [getMatrix, if_pos h, zeroMatrix, List.mem_map] at hrow
    obtain ⟨x, _, rfl⟩ := hrow
    constructor
    · simp
    · intro v hv
      simp only [List.mem_map] at hv
      obtain ⟨y, _, rfl⟩ := hv
      rfl
  · intro h
    simp [getMatrix, h]

/-- C4 witness: one project against the startup empty frame (shape (0,0) ≠
(1,1)) triggers the all-zero rebuild; the fresh state (shape (0,0) = (0,0))
is left untouched. -/
theorem getMatrix_spec_witness :
    ((getMatrix (add_project initState "A")).matrix.rowNames
        = (add_project initState "A").projects ∧
      (getMatrix (add_project initState "A")).matrix.colNames
        = (add_project initState "A").projects) ∧
    getMatrix initState = initState :=
  ⟨⟨((getMatrix_spec (add_project initState "A")).1 (by decide)).1,
    ((getMatrix_spec (add_project initState "A")).1 (by decide)).2.1⟩,
   (getMatrix_spec initState).2 (by decide)⟩

/-! ### Claims C2 and C10: reachability invariants -/

theorem getMatrix_projects (s : AppState) : (getMatrix s).projects = s.projects := by
  unfold getMatrix
  split <;> rfl

theorem getMatrix_ratings (s : AppState) : (getMatrix s).ratings = s.ratings := by
  unfold getMatrix
  split <;> rfl

theorem getMatrix_values (s : AppState) : (getMatrix s).values = s.values := by
  unfold getMatrix
  split <;> rfl

theorem WF_initState : WF initState := by
  refine ⟨List.nodup_nil, List.nodup_nil, ?_⟩
  intro k hk
  simp [initState, dictLookup] at hk

theorem WF_add (s : AppState) (name : String) (hw : WF s) : WF (add_project s name) := by
  obtain ⟨h1, h2, h3⟩ := hw
  by_cases he : name = ""
  · have : add_project s name = s := by simp [add_project, he]
    rw [this]
    exact ⟨h1, h2, h3⟩
  · by_cases hm : name ∈ s.projects
    · have : add_project s name = s := by simp [add_project, he, hm]
      rw [this]
      exact ⟨h1, h2, h3⟩
    · refine ⟨?_, ?_, ?_⟩
      · simp only [add_project, if_neg he, if_neg hm]
        simp [List.nodup_append, h1, hm]
      · simp only [add_project, if_neg he, if_neg hm]
        exact dictKeys_insert_nodup s.ratings name defaultRating h2
      · intro k hk
        simp only [add_project, if_neg he, if_neg hm] at hk ⊢
        rw [dictLookup_isSome_iff_mem, dictKeys_insert] at hk
        by_cases hkm : name ∈ dictKeys s.ratings
        · rw [if_pos hkm] at hk
          exact List.mem_append_left _ (h3 k ((dictLookup_isSome_iff_mem _ _).mpr hk))
        · rw [if_neg hkm] at hk
          rcases List.mem_append.mp hk with hk | hk
          · exact List.mem_append_left _ (h3 k ((dictLookup_isSome_iff_mem _ _).mpr hk))
          · simp only [List.mem_singleton] at hk
            subst hk
            exact List.mem_append_right _ (by simp)

theorem delete_project_inv {s s' : AppState} {i : Nat}
    (h : delete_project s i = some s') :
    ∃ name, s.projects.get? i = some name ∧ (dictLookup s.ratings name).isSome ∧
      s' = { s with
             projects := s.projects.eraseIdx i
             ratings := dictErase s.ratings name } := by
  unfold delete_project at h
  split at h
  · exact Option.noConfusion h
  · next name hg =>
    split at h
    · next hr => exact ⟨name, hg, hr, (Option.some.inj h).symm⟩
    · exact Option.noConfusion h

theorem WF_del {s s' : AppState} {i : Nat} (h : delete_project s i = some s')
    (hw : WF s) : WF s' := by
  obtain ⟨name, hg, hr, rfl⟩ := delete_project_inv h
  obtain ⟨h1, h2, h3⟩ := hw
  refine ⟨(s.projects.eraseIdx_sublist i).nodup h1, dictKeys_erase_nodup _ _ h2, ?_⟩
  intro k hk
  by_cases hkn : k = name
  · subst hkn
    rw [dictLookup_erase_self _ h2] at hk
    exact absurd hk (by simp)
  · rw [dictLookup_erase_ne _ hkn] at hk
    exact mem_eraseIdx_of_ne (h3 k hk) hg hkn

theorem WF_step {s s' : AppState} (h : Step s s') (hw : WF s) : WF s' := by
  cases h with
  | add name => exact WF_add _ name hw
  | del s2 i hd => exact WF_del hd hw
  | ladder name text hmem =>
    obtain ⟨h1, h2, h3⟩ := hw
    by_cases ht : text = ""
    · have : setValue s name text = s := by simp [setValue, ht]
      rw [this]
      exact ⟨h1, h2, h3⟩
    · refine ⟨?_, ?_, ?_⟩
      · simpa [setValue, ht] using h1
      · simpa [setValue, ht] using h2
      · intro k hk
        simp only [setValue, if_neg ht] at hk ⊢
        exact h3 k hk
  | matrixEdit cells hn hrows hcols hval =>
    obtain ⟨h1, h2, h3⟩ := hw
    have hp : (editCells (getMatrix s) cells).projects = s.projects := getMatrix_projects s
    have hrat : (editCells (getMatrix s) cells).ratings = s.ratings := getMatrix_ratings s
    refine ⟨?_, ?_, ?_⟩
    · rw [hp]
      exact h1
    · rw [hrat]
      exact h2
    · intro k hk
      rw [hrat] at hk
      rw [hp]
      exact h3 k hk

theorem reflTrans_WF {s : AppState} (h : Relation.ReflTransGen Step initState s) :
    WF s := by
  induction h with
  | refl => exact WF_initState
  | tail _ hstep ih => exact WF_step hstep ih

theorem reachable_WF {s : AppState} (h : Reachable s) : WF s := reflTrans_WF h

/-- C2 (amended): in every state reachable by addProject, deleteProject,
setValue and the matrix rebuild/edit step, every name that appears as a key
of the rating store is a registered project.  (The original claim extended
this to the value-ladder store and the matrix labels; those parts are false
— see `referential_integrity_counterexample`.) -/
theorem ratings_referential_integrity (s : AppState) (h : Reachable s)
    (k : String) (hk : (dictLookup s.ratings k).isSome) : k ∈ s.projects :=
  (reachable_WF h).2.2 k hk

theorem cexS6_reachable : Reachable cexS6 := by
  have h1 : Step initState cexS1 := Step.add _ "A"
  have h2 : Step cexS1 cexS2 := Step.add _ "B"
  have h3 : Step cexS2 cexS3 :=
    Step.matrixEdit _ _ (by decide) (by decide) (by decide) (by decide)
  have h4 : Step cexS3 cexS4 := Step.ladder _ "A" "growth" (by decide)
  have h5 : Step cexS4 cexS5 := Step.del _ _ 0 (by decide)
  have h6 : Step cexS5 cexS6 := Step.add _ "C"
  exact .tail (.tail (.tail (.tail (.tail (.tail .refl h1) h2) h3) h4) h5) h6

/-- C2 counterexample: after add A, add B, a Phase 4 visit, laddering A,
deleting A and adding C — a sequence of exactly the operations the claim
names —
the ladder store still holds key "A" and the matrix is still labelled with
"A", but "A" is no longer in the registry, refuting the claimed invariant
for the value-ladder store and the impact matrix. -/
theorem referential_integrity_counterexample :
    Reachable cexS6 ∧ "A" ∈ dictKeys cexS6.values ∧
      "A" ∈ cexS6.matrix.rowNames ∧ "A" ∉ cexS6.projects :=
  ⟨cexS6_reachable, by decide, by decide, by decide⟩

/-- C2 witness: the amended integrity theorem applied at the end of the
counterexample trace — "B" holds a rating entry there and is registered. -/
theorem ratings_referential_integrity_witness : "B" ∈ cexS6.projects :=
  ratings_referential_integrity cexS6 cexS6_reachable "B" (by decide)

theorem WFR_initState : WFR initState := ⟨WF_initState, by intro name h; simp [initState] at h⟩

theorem WFR_add (s : AppState) (name : String) (hw : WFR s) : WFR (add_project s name) := by
  obtain ⟨hwf, hdef⟩ := hw
  refine ⟨WF_add s name hwf, ?_⟩
  by_cases he : name = ""
  · have : add_project s name = s := by simp [add_project, he]
    rw [this]
    exact hdef
  · by_cases hm : name ∈ s.projects
    · have : add_project s name = s := by simp [add_project, he, hm]
      rw [this]
      exact hdef
    · intro m hmem
      simp only [add_project, if_neg he, if_neg hm] at hmem ⊢
      rcases List.mem_append.mp hmem with hmo | hmn
      · have hne : m ≠ name := fun h => hm (h ▸ hmo)
        rw [dictLookup_insert_ne _ _ hne]
        exact hdef m hmo
      · simp only [List.mem_singleton] at hmn
        subst hmn
        exact dictLookup_insert_self _ _ _

theorem WFR_del {s s' : AppState} {i : Nat} (h : delete_project s i = some s')
    (hw : WFR s) : WFR s' := by
  obtain ⟨hwf, hdef⟩ := hw
  refine ⟨WF_del h hwf, ?_⟩
  obtain ⟨name, hg, hr, rfl⟩ := delete_project_inv h
  intro m hmem
  have hmo : m ∈ s.projects := mem_of_mem_eraseIdx hmem
  have hne : m ≠ name := by
    intro he
    subst he
    exact not_mem_eraseIdx_of_nodup hwf.1 hg hmem
  rw [dictLookup_erase_ne _ hne]
  exact hdef m hmo

theorem WFR_stepR {s s' : AppState} (h : StepR s s') (hw : WFR s) : WFR s' := by
  cases h with
  | add name => exact WFR_add _ name hw
  | del s2 i hd => exact WFR_del hd hw
  | reset => exact WFR_initState

theorem reflTransR_WFR {s : AppState} (h : Relation.ReflTransGen StepR initState s) :
    WFR s := by
  induction h with
  | refl => exact WFR_initState
  | tail _ hstep ih => exact WFR_stepR hstep ih

/-- C10: in every state reachable by addProject, deleteProject and the full
reset, every registered project has a rating entry whose key set is exactly
the 16 fixed dimensions, and the `ratings[name]` lookup performed by the
appraisal phase and by the dashboard row builder therefore never fails. -/
theorem registry_ratings_never_fail (s : AppState) (h : ReachableR s) :
    ∀ name ∈ s.projects, ∃ r, dictLookup s.ratings name = some r ∧
      dictKeys r = projectDims ∧ projectDims.length = 16 ∧
      (dictLookup s.ratings name).isSome ∧ (dashboardRow s name).isSome := by
  intro name hm
  have hd := (reflTransR_WFR h).2 name hm
  exact ⟨defaultRating, hd, by decide, by decide, by rw [hd]; rfl,
    by rw [dashboardRow, hd]; rfl⟩

/-- C10 witness: one add step from the fresh state; "A" then carries the
full 16-dimension rating entry. -/
theorem registry_ratings_never_fail_witness :
    ∃ r, dictLookup (add_project initState "A").ratings "A" = some r ∧
      dictKeys r = projectDims ∧ projectDims.length = 16 ∧
      (dictLookup (add_project initState "A").ratings "A").isSome ∧
      (dashboardRow (add_project initState "A") "A").isSome :=
  registry_ratings_never_fail (add_project initState "A")
    (Relation.ReflTransGen.single (StepR.add initState "A")) "A" (by decide)

/-! ### Claim C3: the CSV export -/

theorem dictLookup_append {α : Type} (l1 l2 : List (String × α)) (k : String)
    (h : k ∉ dictKeys l1) : dictLookup (l1 ++ l2) k = dictLookup l2 k := by
  induction l1 with
  | nil => rfl
  | cons p t ih =>
    obtain ⟨k', v'⟩ := p
    simp only [dictKeys, List.map_cons, List.mem_cons] at h
    push_neg at h
    simp only [List.cons_append, dictLookup, if_neg h.1]
    exact ih (by simpa [dictKeys] using h.2)

theorem mapM_option_spec {α β : Type} (f : α → Option β) :
    ∀ (l : List α) (bs : List β), l.mapM f = some bs →
      bs.length = l.length ∧
      (∀ i a, l.get? i = some a → ∃ b, bs.get? i = some b ∧ f a = some b) ∧
      (∀ b ∈ bs, ∃ a ∈ l, f a = some b)
  | [], bs, h => by
    simp only [List.mapM_nil, pure, Option.some.injEq] at h
    subst h
    exact ⟨rfl, fun i a ha => by simp at ha, fun b hb => by simp at hb⟩
  | a :: t, bs, h => by
    simp only [List.mapM_cons] at h
    cases hfa : f a with
    | none => rw [hfa] at h; simp at h
    | some b =>
      rw [hfa] at h
      cases hmt : t.mapM f with
      | none => rw [hmt] at h; simp at h
      | some bs' =>
        rw [hmt] at h
        obtain rfl : b :: bs' = bs := by simpa using h
        obtain ⟨ih1, ih2, ih3⟩ := mapM_option_spec f t bs' hmt
        refine ⟨by simp [ih1], ?_, ?_⟩
        · intro i x hx
          cases i with
          | zero =>
            simp only [List.get?] at hx ⊢
            obtain rfl : a = x := by injection hx
            exact ⟨b, rfl, hfa⟩
          | succ j =>
            simp only [List.get?] at hx ⊢
            exact ih2 j x hx
        · intro y hy
          rcases List.mem_cons.mp hy with rfl | hy
          · exact ⟨a, List.mem_cons_self a t, hfa⟩
          · obtain ⟨x, hx1, hx2⟩ := ih3 y hy
            exact ⟨x, List.mem_cons_of_mem _ hx1, hx2⟩

theorem dashboardRow_spec (s : AppState) (name : String) (row : List (String × Cell))
    (h : dashboardRow s name = some row) :
    row.map Prod.fst
      = ["Stress", "Meaning", "Efficacy", "Structure", "Community", "Name", "Core Value"] ∧
    dictLookup row "Name" = some (Cell.str name) ∧
    dictLookup row "Core Value"
      = some (Cell.str ((dictLookup s.values name).getD "N/A")) := by
  unfold dashboardRow at h
  cases hr : dictLookup s.ratings name with
  | none => rw [hr] at h; simp at h
  | some r =>
    rw [hr] at h
    obtain rfl : _ = row := Option.some.inj (by simpa using h)
    exact ⟨rfl, rfl, rfl⟩

/-- C3 (amended): `df.to_csv()` serializes the dashboard rows under the
default integer index of the DataFrame (an unnamed leading column), with columns
Stress, Meaning, Efficacy, Structure, Community, Name, Core Value in that
order — `Name` is an ordinary trailing column and `Community` is included
(the five-column `Name`-indexed view is the on-screen report table, not the
export).  As claimed, the row count equals the registry project count and
`Core Value` falls back to the literal `"N/A"` exactly when the project has
no ladder entry. -/
theorem export_spec (s : AppState) (rows : List (List (String × Cell)))
    (h : dashboardData s = some rows) :
    rows.length = s.projects.length ∧
    (∀ row ∈ rows, row.map Prod.fst
      = ["Stress", "Meaning", "Efficacy", "Structure", "Community", "Name", "Core Value"]) ∧
    (rows ≠ [] → csvHeader rows
      = ["", "Stress", "Meaning", "Efficacy", "Structure", "Community", "Name", "Core Value"]) ∧
    (∀ i name, s.projects.get? i = some name → ∃ row, rows.get? i = some row ∧
      dictLookup row "Name" = some (Cell.str name) ∧
      dictLookup row "Core Value"
        = some (Cell.str ((dictLookup s.values name).getD "N/A"))) := by
  obtain ⟨h1, h2, h3⟩ := mapM_option_spec (dashboardRow s) s.projects rows h
  refine ⟨h1, ?_, ?_, ?_⟩
  · intro row hrow
    obtain ⟨a, _, ha⟩ := h3 row hrow
    exact (dashboardRow_spec s a row ha).1
  · intro hne
    cases hrows : rows with
    | nil => exact absurd hrows hne
    | cons r0 rest =>
      have hr0 : r0 ∈ rows := by
        rw [hrows]
        exact List.mem_cons_self r0 rest
      obtain ⟨a, _, ha⟩ := h3 r0 hr0
      rw [csvHeader]
      show "" :: r0.map Prod.fst = _
      rw [(dashboardRow_spec s a r0 ha).1]
  · intro i name hg
    obtain ⟨row, hrow, hfrow⟩ := h2 i name hg
    obtain ⟨hk, hn, hcv⟩ := dashboardRow_spec s name row hfrow
    exact ⟨row, hrow, hn, hcv⟩

/-- C3 counterexample: in the one-project state `add_project initState "A"`
the header row of the export is the unnamed index followed by Stress, Meaning,
Efficacy, Structure, Community, Name, Core Value — not the claimed `Name`
index followed by Stress, Meaning, Efficacy, Structure, Core Value (that
claimed set also omits the exported `Community` column). -/
theorem dashboardData_cex3 : dashboardData (add_project initState "A") = some cex3Rows := by
  have hA : add_project initState "A" =
      { projects := ["A"], ratings := [("A", defaultRating)],
        values := [], matrix := ⟨[], [], []⟩ } := by decide
  rw [dashboardData, hA]
  norm_num [dashboardRow, cex3Rows, calculate_factors, defaultRating, projectDims,
    dictLookup, List.mapM, List.mapM.loop]

theorem export_header_counterexample :
    dashboardData (add_project initState "A") = some cex3Rows ∧
    csvHeader cex3Rows
      = ["", "Stress", "Meaning", "Efficacy", "Structure", "Community", "Name", "Core Value"] ∧
    csvHeader cex3Rows
      ≠ ["Name", "Stress", "Meaning", "Efficacy", "Structure", "Core Value"] ∧
    exportColumns cex3Rows ≠ ["Stress", "Meaning", "Efficacy", "Structure", "Core Value"] :=
  ⟨dashboardData_cex3, by decide, by decide, by decide⟩

/-- C3 witness: the amended export theorem applied to the same one-project
state — one row (equal to the registry count) and the seven-column header. -/
theorem export_spec_witness :
    cex3Rows.length = 1 ∧
    csvHeader cex3Rows
      = ["", "Stress", "Meaning", "Efficacy", "Structure", "Community", "Name", "Core Value"] := by
  obtain ⟨h1, h2, h3, h4⟩ :=
    export_spec (add_project initState "A") cex3Rows dashboardData_cex3
  exact ⟨h1.trans (by decide), h3 (by decide)⟩
